import Mathlib

set_option maxHeartbeats 4000000
set_option maxRecDepth 10000

/-!
Shallow embedding of `src/nodejs-info.js` (the `nodeinfo` function of the
`nodejs-info` package) and proofs about it.

Modelling conventions:
* Host/process facts that the source reads from `os`, `process`, `Intl` and
  `Date` are an explicit `Host` input (the function cannot read the OS here).
* JS numbers are modelled as `Nat`/`Int`/`Rat`; the division-by-zero results
  `NaN`/`Infinity` are made explicit by the `JsNum` type.
* A thrown JS `TypeError` is `Except.error`; the source's in-place mutation of
  the caller's request object is explicit state passing: the embedded function
  returns the (possibly mutated) request object next to the HTML string.
* Handlebars output is modelled as a list of `Chunk`s: fixed template literals
  (`lit`), escaped interpolations `{{x}}` (`escd`), and the single unescaped
  triple-stash interpolation for the style override (`raw`).  Handlebars'
  standalone-line stripping removes the lines holding only block tags, so the
  literal chunks below are the exact text between interpolation points.
-/

namespace NodejsInfo

/-! ## Definitions -/

/-- Decimal digit character, `48 + d` in ASCII. -/
def digitChar10 (d : Nat) : Char := Char.ofNat (48 + d % 10)

/-- Fuel-driven decimal digit list of a natural number (most significant first). -/
def natCharsAux : Nat → Nat → List Char
  | 0, _ => []
  | fuel + 1, n => if n < 10 then [digitChar10 n] else natCharsAux fuel (n / 10) ++ [digitChar10 (n % 10)]

/-- Decimal rendering of a natural number, as JS `String(n)` renders a nonnegative integer. -/
def natStr (n : Nat) : String := String.mk (natCharsAux (n + 1) n)

/-- Decimal rendering of an integer, as JS `String(n)` renders an integer. -/
def intStr (n : Int) : String := if n < 0 then "-" ++ natStr n.natAbs else natStr n.natAbs

/-- JS `Math.round`: round half toward positive infinity. -/
def jsRound (q : ℚ) : Int := ⌊q + 1/2⌋

/-- The values JS `Math.round(x/y*100)` can take once division by zero is accounted for. -/
inductive JsNum where
  | nan : JsNum
  | inf : JsNum
  | int : Int → JsNum
deriving DecidableEq

/-- JS stringification of such a number (`String(NaN) = "NaN"` etc.). -/
def JsNum.render : JsNum → String
  | .nan => "NaN"
  | .inf => "Infinity"
  | .int n => intStr n

/-- Translation of `Math.round(context.os.freemem/context.os.totalmem*100)`
(src/nodejs-info.js line 143), with JS IEEE semantics of division by zero made
explicit: `0/0` is `NaN`, `x/0` for `x > 0` is `Infinity`.  For a nonzero
total the rounded value `⌊free/total*100 + 1/2⌋` is computed in exact integer
arithmetic as `(200*free + total) / (2*total)`; the theorem
`freemem_percent_formula` proves this equal to `jsRound` of the rational
quotient, i.e. to the source's `Math.round` formula. -/
def freememPercent (freemem totalmem : Nat) : JsNum :=
  if totalmem = 0 then (if freemem = 0 then JsNum.nan else JsNum.inf)
  else JsNum.int (((200 * freemem + totalmem) / (2 * totalmem) : Nat))

/-- The string handlebars interpolates for `{{os.freemempercent}}`. -/
def freememPercentStr (freemem totalmem : Nat) : String := (freememPercent freemem totalmem).render

/-- Translation of `cpus.model[m] = (cpus.model[m] || 0) + 1` (src/nodejs-info.js
lines 147-151): bump the count of key `k` in an insertion-ordered count map. -/
def bump {α : Type} [DecidableEq α] (m : List (α × Nat)) (k : α) : List (α × Nat) :=
  if m.any (fun kv => kv.1 = k) then m.map (fun kv => if kv.1 = k then (kv.1, kv.2 + 1) else kv)
  else m ++ [(k, 1)]

/-- Count map of a list of keys, in insertion order (JS object with string keys). -/
def countMap {α : Type} [DecidableEq α] (l : List α) : List (α × Nat) := l.foldl bump []

/-- Insert into a list sorted by first component (ascending). -/
def insertByKey (p : Nat × Nat) : List (Nat × Nat) → List (Nat × Nat)
  | [] => [p]
  | q :: qs => if p.1 ≤ q.1 then p :: q :: qs else q :: insertByKey p qs

/-- Sort by first component ascending.  A JS object whose keys are array-index
strings (the CPU speeds) iterates them in ascending numeric order. -/
def sortByKey (l : List (Nat × Nat)) : List (Nat × Nat) := l.foldr insertByKey []

/-- The `cpus.model` grouping of src/nodejs-info.js lines 147-153: one entry per
distinct model string, in insertion order. -/
def cpuModelEntries (cpus : List (String × Nat)) : List (String × Nat) :=
  countMap (cpus.map (fun c => c.1))

/-- The `cpus.speed` grouping of src/nodejs-info.js lines 147-154: one entry per
distinct speed, iterated in ascending numeric key order. -/
def cpuSpeedEntries (cpus : List (String × Nat)) : List (Nat × Nat) :=
  sortByKey (countMap (cpus.map (fun c => c.2)))

/-- `context.os.cpus.model` (line 155): entries `"<count> × <model>"` joined by `", "`. -/
def cpuModelStr (cpus : List (String × Nat)) : String :=
  String.intercalate (", ") ((cpuModelEntries cpus).map (fun kv => natStr kv.2 ++ " × " ++ kv.1))

/-- `context.os.cpus.speed` (line 156): entries `"<count> × <speed>"` joined by
`", "`, with a single `" MHz"` suffix on the whole string. -/
def cpuSpeedStr (cpus : List (String × Nat)) : String :=
  String.intercalate (", ") ((cpuSpeedEntries cpus).map (fun kv => natStr kv.2 ++ " × " ++ natStr kv.1)) ++ " MHz"

/-- JS `Number.prototype.toFixed(2)` on a nonnegative rational (load averages
are nonnegative): `⌊q*100 + 1/2⌋` computed on the reduced fraction in integer
arithmetic, then printed with two decimals. -/
def toFixed2 (q : ℚ) : String :=
  let n : Nat := (200 * q.num + q.den).toNat / (2 * q.den)
  natStr (n / 100) ++ "." ++ (if n % 100 < 10 then "0" else "") ++ natStr (n % 100)

/-- `context.os.loadavg` after lines 141-142: each value `toFixed(2)`, space-joined. -/
def loadavgStr (l : List ℚ) : String := String.intercalate (" ") (l.map toFixed2)

/-- Modelled from the spec (§4.2): byte counts → human-readable size strings.
The source delegates this to the external `prettysize` package, which is not
part of this repository; the spec asks for binary unit steps with rounding to
one decimal place. -/
def prettysize (bytes : Nat) : String :=
  let fmt1 := fun (num den : Nat) =>
    let t := num * 10 / den
    natStr (t / 10) ++ "." ++ natStr (t % 10)
  if bytes < 1024 then natStr bytes ++ " Bytes"
  else if bytes < 1024 ^ 2 then fmt1 bytes 1024 ++ " kB"
  else if bytes < 1024 ^ 3 then fmt1 bytes (1024 ^ 2) ++ " MB"
  else if bytes < 1024 ^ 4 then fmt1 bytes (1024 ^ 3) ++ " GB"
  else fmt1 bytes (1024 ^ 4) ++ " TB"

/-- Modelled from the spec (§4.2): seconds → composed duration string over
days/hours/minutes, rounded.  The source delegates this to the external
`humanize-duration` package (with `units: [d, h, m], round: true`), which is
not part of this repository. -/
def humanizeDur (seconds : Nat) : String :=
  let m := (seconds + 30) / 60
  let d := m / 1440
  let h := (m % 1440) / 60
  let mm := m % 60
  let parts := (if d = 0 then [] else [natStr d ++ (if d = 1 then " day" else " days")])
    ++ (if h = 0 then [] else [natStr h ++ (if h = 1 then " hour" else " hours")])
    ++ (if mm = 0 ∧ (d ≠ 0 ∨ h ≠ 0) then [] else [natStr mm ++ (if mm = 1 then " minute" else " minutes")])
  String.intercalate (", ") parts

/-- Hexadecimal value of a character, if any. -/
def hexVal (c : Char) : Option Nat :=
  if 48 ≤ c.toNat ∧ c.toNat ≤ 57 then some (c.toNat - 48)
  else if 65 ≤ c.toNat ∧ c.toNat ≤ 70 then some (c.toNat - 55)
  else if 97 ≤ c.toNat ∧ c.toNat ≤ 102 then some (c.toNat - 87)
  else none

/-- Percent-decoding of `%XX` escapes, fuel-driven; malformed escapes are left
untouched. -/
def pctDecodeAux : Nat → List Char → List Char
  | 0, l => l
  | _ + 1, [] => []
  | fuel + 1, c :: rest =>
    if c = '%' then
      match rest with
      | a :: b :: rest2 =>
        match hexVal a, hexVal b with
        | some x, some y => Char.ofNat (16 * x + y) :: pctDecodeAux fuel rest2
        | _, _ => '%' :: pctDecodeAux fuel rest
      | _ => '%' :: pctDecodeAux fuel rest
    else c :: pctDecodeAux fuel rest

/-- Percent-decoding of `%XX` escapes; malformed escapes are left untouched. -/
def pctDecode (l : List Char) : List Char := pctDecodeAux l.length l

/-- Split a character list on semicolons. -/
def splitSemi : List Char → List (List Char)
  | [] => [[]]
  | c :: rest =>
    let r := splitSemi rest
    if c = ';' then [] :: r
    else match r with
      | [] => [[c]]
      | h :: t => (c :: h) :: t

/-- Split at the first `=`, if any. -/
def splitEq : List Char → Option (List Char × List Char)
  | [] => none
  | c :: rest =>
    if c = '=' then some ([], rest)
    else (splitEq rest).map (fun p => (c :: p.1, p.2))

/-- Drop surrounding spaces. -/
def trimChars (l : List Char) : List Char :=
  ((l.dropWhile (fun c => c = ' ')).reverse.dropWhile (fun c => c = ' ')).reverse

/-- Drop a surrounding double-quote pair, if the value starts with one. -/
def stripQuotes : List Char → List Char
  | '"' :: rest => rest.dropLast
  | l => l

/-- Modelled from the spec (§4.1): the repository delegates cookie-header
parsing to the external `cookie` package, which is not part of this
repository's sources.  The spec describes it as standard cookie-string
decoding: semicolon-separated `name=value` pairs, names and values trimmed,
values unquoted and URL-decoded; a segment without `=` is skipped and the
first occurrence of a name wins. -/
def cookieParse (s : String) : List (String × String) :=
  (splitSemi s.data).foldl
    (fun acc seg =>
      match splitEq seg with
      | none => acc
      | some kv =>
        let key := String.mk (trimChars kv.1)
        let val := String.mk (pctDecode (stripQuotes (trimChars kv.2)))
        if acc.any (fun e => e.1 = key) then acc else acc ++ [(key, val)])
    []

/-- A transport socket as the source touches it: an `encrypted` truthiness flag
and a possibly-undefined `remoteAddress`. -/
structure Socket where
  encrypted : Bool
  remoteAddress : Option String
deriving DecidableEq

/-- A `connection` object as the source touches it: a possibly-undefined
`remoteAddress` and a possibly-undefined nested `socket`. -/
structure Connection where
  remoteAddress : Option String
  socket : Option Socket
deriving DecidableEq

/-- An insertion-ordered header map (a JS object with unique lowercased keys). -/
abbrev Headers := List (String × String)

/-- A Node request object as the source reads and mutates it.  `headers` is
`none` when the field is absent or otherwise falsy.  The fields `href`,
`ip_addr` and `cookies` are the ones the source assigns onto the caller's
request object; before a call they are whatever the caller had there. -/
structure Request where
  method : String
  url : String
  headers : Option Headers
  socket : Socket
  connection : Connection
  showOriginalUrl : Bool
  originalUrl : Option String
  href : Option String
  ip_addr : Option String
  cookies : Option (List (String × String))
deriving DecidableEq

/-- The `options` argument: a possibly-present `style` key. -/
structure Options where
  style : Option String
deriving DecidableEq

/-- `Object.assign({ style: '' }, options).style` (lines 122-123). -/
def styleOf (opts : Option Options) : String :=
  match opts with
  | none => ""
  | some o => o.style.getD ""

/-- Package metadata snapshot (`packageJson`, line 16-17), already reduced to
what the template reads: name, optional description, version, and the
dependency-name list (the keys of `dependencies`). -/
structure PackageJson where
  name : String
  description : Option String
  version : String
  dependencies : Option (List String)

/-- Point-in-time host and process facts: everything the source reads from
`os`, `process`, `Intl.DateTimeFormat` and `Date()`.  They are inputs here
because the embedded function cannot read the machine. -/
structure Host where
  hostname : String
  ostype : String
  platform : String
  release : String
  cpus : List (String × Nat)
  uptime : Nat
  loadavg : List ℚ
  totalmem : Nat
  freemem : Nat
  nodeVersion : String
  versions : List (String × String)
  nodeEnv : Option String
  rss : Nat
  heapTotal : Nat
  heapUsed : Nat
  intlTimezone : String
  dateTzOffset : String
  packageJson : Option PackageJson

/-- JS truthiness of a possibly-undefined string. -/
def jsTruthyOpt (o : Option String) : Bool :=
  match o with
  | none => false
  | some s => !s.isEmpty

/-- JS string coercion in a template literal / `+` concatenation:
`undefined` becomes `"undefined"`. -/
def jsS (o : Option String) : String := o.getD "undefined"

/-- Handlebars rendering of a possibly-missing value: `undefined` renders as `""`. -/
def hbS (o : Option String) : String := o.getD ""

/-- First-match lookup in a header map (`req.headers[k]`). -/
def hLookup : Headers → String → Option String
  | [], _ => none
  | kv :: rest, k => if kv.1 = k then some kv.2 else hLookup rest k

/-- `delete context.request.headers.cookie` (line 183). -/
def deleteCookie : Headers → Headers
  | [] => []
  | kv :: rest => if kv.1 = "cookie" then deleteCookie rest else kv :: deleteCookie rest

/-- Translation of lines 173-175: `req.connection.remoteAddress ||
req.socket.remoteAddress || req.connection.socket.remoteAddress`.  The first
truthy value wins; if the first two are falsy and `connection.socket` is
undefined, the property read throws a `TypeError`; otherwise the chain's value
is the last operand even when that is falsy. -/
def jsPeer (r : Request) : Except String (Option String) :=
  if jsTruthyOpt r.connection.remoteAddress then Except.ok r.connection.remoteAddress
  else if jsTruthyOpt r.socket.remoteAddress then Except.ok r.socket.remoteAddress
  else
    match r.connection.socket with
    | none => Except.error ("TypeError: Cannot read properties of undefined (reading remoteAddress)")
    | some s => Except.ok s.remoteAddress

/-- Translation of the `if (req.headers)` body, lines 168-184, given
`req.headers = hs`: computes the protocol, `href`, `ip_addr` and parsed
cookies, deletes the cookie header, and returns the mutated request object
(the source writes these fields onto `req` itself via `context.request`). -/
def collectReq (r : Request) (hs : Headers) : Except String Request :=
  let protocol := if r.socket.encrypted ∨ hLookup hs ("x-forwarded-proto") = some ("https") then "https" else "http"
  let href := protocol ++ "://" ++ jsS (hLookup hs ("host")) ++ r.url
  match jsPeer r with
  | Except.error e => Except.error e
  | Except.ok remoteAddr =>
    let ipAddr : Option String :=
      match hLookup hs ("x-forwarded-for") with
      | some xff => if xff.isEmpty then remoteAddr else some (xff ++ " via " ++ jsS remoteAddr)
      | none => remoteAddr
    let cookies :=
      match hLookup hs ("cookie") with
      | some c => if c.isEmpty then [] else cookieParse c
      | none => []
    Except.ok { r with
      href := some href
      ip_addr := ipAddr
      cookies := some cookies
      headers := some (deleteCookie hs) }

/-- Handlebars HTML escaping of one character (`Handlebars.escapeExpression`). -/
def hbEscapeChar (c : Char) : List Char :=
  if c = '&' then "&amp;".data
  else if c = '<' then "&lt;".data
  else if c = '>' then "&gt;".data
  else if c = '"' then "&quot;".data
  else if c = Char.ofNat 39 then "&#x27;".data
  else if c = Char.ofNat 96 then "&#x60;".data
  else if c = '=' then "&#x3D;".data
  else [c]

/-- Handlebars HTML escaping of a character list. -/
def hbEscapeList (l : List Char) : List Char := (l.map hbEscapeChar).flatten

/-- Handlebars HTML escaping of a string (applied by every `{{x}}` interpolation). -/
def hbEscape (s : String) : String := String.mk (hbEscapeList s.data)

/-- One piece of the rendered page: a fixed template literal, an escaped `{{x}}`
interpolation, or the raw `{{{styleOverride}}}` interpolation. -/
inductive Chunk where
  | lit : String → Chunk
  | escd : String → Chunk
  | raw : String → Chunk
deriving DecidableEq

/-- The text a chunk contributes to the page. -/
def Chunk.render : Chunk → String
  | Chunk.lit s => s
  | Chunk.escd s => hbEscape s
  | Chunk.raw s => s

/-- Concatenation of a list of strings. -/
def strJoin : List String → String
  | [] => ""
  | s :: rest => s ++ strJoin rest

/-- Fixed template text from the doctype up to the `{{{styleOverride}}}` slot. -/
def headLit1 : String :=
  "<!doctype html>\n<html>\n<head>\n    <title>NodeInfo</title>\n    <meta charset=\"utf-8\">\n    <meta name=\"viewport\" content=\"width=device-width, initial-scale=1\">\n    <link rel=\"stylesheet\" href=\"https://unpkg.com/sanitize.css\">\n    <style>\n        main \x7b color: #333333; font: 80% Verdana, Arial, Helvetica, sans-serif; line-height: 1.6; margin: 0.4em; \x7d\n        h1 \x7b font-size: 1.6em; \x7d\n        h2 \x7b margin: 1em 0; \x7d\n        h3 \x7b margin: 0.4em 0; \x7d\n        table \x7b background-color: #f4ede2; border: 1px solid #adadad; font-size: 0.8em; width: 100%; \x7d\n        td, th \x7b padding: 0.2em 0.8em; vertical-align: top; border-top: 1px solid #adadad; border-bottom: 1px solid #adadad; \x7d\n        th \x7b font-weight: normal; text-align: left; white-space: nowrap;  \x7d\n        table table \x7b border: none; \x7d\n        table table td, table table th \x7b padding: 0 0.4em 0 0; border: none; font-size: 125%; \x7d\n        "

/-- Fixed template text from after the style override up to `{{process.version}}`. -/
def headLit2 : String :=
  "\n    </style>\n</head>\n<body>\n<main>\n    <h1>Node.js "

/-- Fixed template text closing the `h1` and opening the table. -/
def headLit3 : String := "</h1>\n    <table>\n"

/-- Head chunks: everything before the Package section. -/
def headChunks (h : Host) (sty : String) : List Chunk :=
  [Chunk.lit headLit1, Chunk.raw sty, Chunk.lit headLit2, Chunk.escd h.nodeVersion, Chunk.lit headLit3]

/-- The dependencies display string: `Object.keys(dependencies).join(', ')` (line 132). -/
def depsStr (ks : List String) : String := String.intercalate (", ") ks

/-- The Package heading and name row (template lines 45-46). -/
def pkgNameRow (name : String) : List Chunk :=
  [Chunk.lit ("        <tr><th colspan=\"2\"><h2>Package</h2></th></tr>\n        <tr><th>name</th><td>"),
   Chunk.escd name,
   Chunk.lit ("</td></tr>\n")]

/-- The `{{#if package.description}}` row (template lines 47-49). -/
def pkgDescChunks : Option String → List Chunk
  | some d =>
    if d.isEmpty then []
    else [Chunk.lit ("        <tr><th>description</th><td>"), Chunk.escd d, Chunk.lit ("</td></tr>\n")]
  | none => []

/-- The version row (template line 50). -/
def pkgVersionRow (v : String) : List Chunk :=
  [Chunk.lit ("        <tr><th>version</th><td>"), Chunk.escd v, Chunk.lit ("</td></tr>\n")]

/-- The `{{#if package.dependencies}}` row (template lines 51-53). -/
def pkgDepsChunks : Option (List String) → List Chunk
  | some ks =>
    if (depsStr ks).isEmpty then []
    else [Chunk.lit ("        <tr><th>dependencies</th><td>"), Chunk.escd (depsStr ks), Chunk.lit ("</td></tr>\n")]
  | none => []

/-- Package section chunks (`{{#if package}}`, template lines 44-54). -/
def pkgChunks : Option PackageJson → List Chunk
  | none => []
  | some p =>
    pkgNameRow p.name ++ pkgDescChunks p.description ++ pkgVersionRow p.version
      ++ pkgDepsChunks p.dependencies

/-- OS, process-memory and timezone rows (template lines 55-74, always rendered),
ending with the blank line and the Node-versions header. -/
def osChunks (h : Host) : List Chunk :=
  [Chunk.lit ("        <tr><th colspan=\"2\"><h2>OS</h2></th></tr>\n        <tr><th>hostname</th><td>"),
   Chunk.escd h.hostname,
   Chunk.lit ("</td></tr>\n        <tr><th>type</th><td>"),
   Chunk.escd h.ostype,
   Chunk.lit ("</td></tr>\n        <tr><th>platform</th><td>"),
   Chunk.escd h.platform,
   Chunk.lit ("</td></tr>\n        <tr><th>release</th><td>"),
   Chunk.escd h.release,
   Chunk.lit ("</td></tr>\n        <tr><th>cpu models</th><td>"),
   Chunk.escd (cpuModelStr h.cpus),
   Chunk.lit ("</td></tr>\n        <tr><th>cpu speeds</th><td>"),
   Chunk.escd (cpuSpeedStr h.cpus),
   Chunk.lit ("</td></tr>\n        <tr><th>uptime</th><td>"),
   Chunk.escd (humanizeDur h.uptime),
   Chunk.lit ("</td></tr>\n        <tr><th>load avg</th><td>"),
   Chunk.escd (loadavgStr h.loadavg),
   Chunk.lit ("</td></tr>\n        <tr><th>total memory</th><td>"),
   Chunk.escd (prettysize h.totalmem),
   Chunk.lit ("</td></tr>\n        <tr><th>free memory</th><td>"),
   Chunk.escd (prettysize h.freemem),
   Chunk.lit (" ("),
   Chunk.escd (freememPercentStr h.freemem h.totalmem),
   Chunk.lit ("%)</td></tr>\n        <tr><th colspan=\"2\"><h3>process</h3></th></tr>\n        <tr><th>resident set size</th><td>"),
   Chunk.escd (prettysize h.rss),
   Chunk.lit ("</td></tr>\n        <tr><th>v8 heap total</th><td>"),
   Chunk.escd (prettysize h.heapTotal),
   Chunk.lit ("</td></tr>\n        <tr><th>v8 heap used</th><td>"),
   Chunk.escd (prettysize h.heapUsed),
   Chunk.lit ("</td></tr>\n        <tr><th colspan=\"2\"><h3>timezone</h3></th></tr>\n        <tr><th>timezone</th><td>"),
   Chunk.escd h.intlTimezone,
   Chunk.lit ("</td></tr>\n        <tr><th>offset</th><td>"),
   Chunk.escd h.dateTzOffset,
   Chunk.lit ("</td></tr>\n\n        <tr><th colspan=\"2\"><h2>Node versions</h2></th></tr>\n")]

/-- One row of the `{{#each process.versions}}` loop (template line 76). -/
def versionRow (kv : String × String) : List Chunk :=
  [Chunk.lit ("        <tr><th>"), Chunk.escd kv.1, Chunk.lit ("</th><td>"), Chunk.escd kv.2,
   Chunk.lit ("</td></tr>\n")]

/-- The Node-versions rows followed by the blank line after the loop. -/
def versionsChunks (vs : List (String × String)) : List Chunk :=
  (vs.map versionRow).flatten ++ [Chunk.lit ("\n")]

/-- The rows of the `{{#if process.env.NODE_ENV}}` block (template lines 80-81). -/
def envRows : Option String → List Chunk
  | some s =>
    if s.isEmpty then []
    else [Chunk.lit ("        <tr><th colspan=\"2\">&nbsp;</th></tr>\n        <tr><th>NODE_ENV</th><td>"),
          Chunk.escd s, Chunk.lit ("</td></tr>\n")]
  | none => []

/-- The `{{#if process.env.NODE_ENV}}` block (template lines 79-82) followed by
the blank line after it. -/
def envChunks (e : Option String) : List Chunk :=
  envRows e ++ [Chunk.lit ("\n")]

/-- The literal that renders the Request heading and opens the method row. -/
def methodRowLit : String :=
  "        <tr><th colspan=\"2\"><h2>Request</h2></th></tr>\n        <tr><th>method</th><td>"

/-- The literal between the method value and the href value. -/
def hrefRowLit : String := "</td></tr>\n        <tr><th>href</th><td>"

/-- The literal between the href value and the remote-ip value. -/
def ipRowLit : String := "</td></tr>\n        <tr><th>remote ip</th><td>"

/-- The literal closing the remote-ip row and rendering the headers heading. -/
def headersHdrLit : String :=
  "</td></tr>\n        <tr><th colspan=\"2\"><h3>headers</h3></th></tr>\n"

/-- The literal opening each header row (template line 94). -/
def headerRowLit : String := "        <tr><th style=\"white-space:nowrap\">"

/-- The literal opening the cookies row and its nested table. -/
def cookiesRowLit : String := "        <tr><th>cookies</th><td>\n            <table>\n"

/-- The fallback row rendered when no request context is present (template line 104). -/
def noRequestLit : String :=
  "        <tr><th colspan=\"2\"><h2>No request object supplied</h2></th></tr>\n"

/-- One row of the `{{#each request.headers}}` loop (template line 94). -/
def headerRow (kv : String × String) : List Chunk :=
  [Chunk.lit headerRowLit, Chunk.escd kv.1, Chunk.lit ("</th><td>"), Chunk.escd kv.2,
   Chunk.lit ("</td></tr>\n")]

/-- One row of the `{{#each request.cookies}}` loop (template line 99). -/
def cookieRow (kv : String × String) : List Chunk :=
  [Chunk.lit ("                <tr><th>"), Chunk.escd kv.1,
   Chunk.lit ("</th><td>:</td><td style=\"word-break:break-all\">"), Chunk.escd kv.2,
   Chunk.lit ("</td></tr>\n")]

/-- The `{{#if request}} ... {{else}} ... {{/if}}` block (template lines 84-105):
the argument is `context.request`, which is only set when `req.headers` was
truthy. -/
def reqChunks : Option Request → List Chunk
  | none => [Chunk.lit noRequestLit]
  | some r =>
    [Chunk.lit methodRowLit,
     Chunk.escd r.method,
     Chunk.lit hrefRowLit,
     Chunk.escd (hbS r.href),
     Chunk.lit ipRowLit,
     Chunk.escd (hbS r.ip_addr),
     Chunk.lit headersHdrLit]
    ++ (if r.showOriginalUrl then
          [Chunk.lit ("        <tr><th>original url</th><td>"), Chunk.escd (hbS r.originalUrl),
           Chunk.lit ("</td></tr>\n")]
        else [])
    ++ ((r.headers.getD []).map headerRow).flatten
    ++ [Chunk.lit cookiesRowLit]
    ++ ((r.cookies.getD []).map cookieRow).flatten
    ++ [Chunk.lit ("            </table>\n        </td></tr>\n")]

/-- The fixed text closing the table and the document. -/
def tailLit : String := "    </table>\n</main>\n</body>\n</html>\n"

/-- The whole compiled template applied to the context (line 186-187), as the
list of emitted chunks. -/
def pageChunks (h : Host) (rctx : Option Request) (sty : String) : List Chunk :=
  headChunks h sty ++ pkgChunks h.packageJson ++ osChunks h ++ versionsChunks h.versions
  ++ envChunks h.nodeEnv ++ reqChunks rctx ++ [Chunk.lit tailLit]

/-- The rendered HTML page. -/
def renderPage (h : Host) (rctx : Option Request) (sty : String) : String :=
  strJoin ((pageChunks h rctx sty).map Chunk.render)

/-- Translation of `nodeinfo(req, options)` (src/nodejs-info.js lines 121-190)
with the mutation of the caller's request object made explicit: the result
carries the HTML string and the request object as the caller observes it after
the call.  Calling without a request object (`req` undefined) reaches
`if (req.headers)` on line 168 and throws a `TypeError`. -/
def nodeinfoFull (h : Host) (req : Option Request) (opts : Option Options) :
    Except String (String × Option Request) :=
  match req with
  | none => Except.error ("TypeError: Cannot read properties of undefined (reading headers)")
  | some r =>
    match r.headers with
    | none => Except.ok (renderPage h none (styleOf opts), some r)
    | some hs =>
      match collectReq r hs with
      | Except.error e => Except.error e
      | Except.ok r2 => Except.ok (renderPage h (some r2) (styleOf opts), some r2)

/-- The HTML string `nodeinfo` returns (the source's return value). -/
def nodeinfo (h : Host) (req : Option Request) (opts : Option Options) : Except String String :=
  (nodeinfoFull h req opts).map Prod.fst

/-- A chunk text `c` is compatible with the absence of pattern `pat`
(which must start with `<`): either it has no `<` at all (escaped chunks), or
it neither contains the pattern nor ends with a nonempty prefix of it. -/
def chunkOk (pat c : List Char) : Prop :=
  '<' ∉ c ∨ (¬ pat <:+: c ∧ ∀ p ∈ pat.inits, p ≠ [] → ¬ p <:+ c)

/-- Every chunk a section can emit: an escaped interpolation, the raw style
override, or a fixed literal from the given list. -/
def ChunkFrom (lits : List String) (sty : String) (ch : Chunk) : Prop :=
  (∃ s, ch = Chunk.escd s) ∨ ch = Chunk.raw sty ∨ (∃ s, s ∈ lits ∧ ch = Chunk.lit s)

/-- The literals of the head section. -/
def headLits : List String := [headLit1, headLit2, headLit3]

/-- The literals of the package section. -/
def pkgLits : List String :=
  ["        <tr><th colspan=\"2\"><h2>Package</h2></th></tr>\n        <tr><th>name</th><td>",
   "</td></tr>\n",
   "        <tr><th>description</th><td>",
   "        <tr><th>version</th><td>",
   "        <tr><th>dependencies</th><td>"]

/-- The literals of the OS/process/timezone section. -/
def osLits : List String :=
  ["        <tr><th colspan=\"2\"><h2>OS</h2></th></tr>\n        <tr><th>hostname</th><td>",
   "</td></tr>\n        <tr><th>type</th><td>",
   "</td></tr>\n        <tr><th>platform</th><td>",
   "</td></tr>\n        <tr><th>release</th><td>",
   "</td></tr>\n        <tr><th>cpu models</th><td>",
   "</td></tr>\n        <tr><th>cpu speeds</th><td>",
   "</td></tr>\n        <tr><th>uptime</th><td>",
   "</td></tr>\n        <tr><th>load avg</th><td>",
   "</td></tr>\n        <tr><th>total memory</th><td>",
   "</td></tr>\n        <tr><th>free memory</th><td>",
   " (",
   "%)</td></tr>\n        <tr><th colspan=\"2\"><h3>process</h3></th></tr>\n        <tr><th>resident set size</th><td>",
   "</td></tr>\n        <tr><th>v8 heap total</th><td>",
   "</td></tr>\n        <tr><th>v8 heap used</th><td>",
   "</td></tr>\n        <tr><th colspan=\"2\"><h3>timezone</h3></th></tr>\n        <tr><th>timezone</th><td>",
   "</td></tr>\n        <tr><th>offset</th><td>",
   "</td></tr>\n\n        <tr><th colspan=\"2\"><h2>Node versions</h2></th></tr>\n"]

/-- The literals of the versions section. -/
def verLits : List String := ["        <tr><th>", "</th><td>", "</td></tr>\n", "\n"]

/-- The literals of the NODE_ENV section. -/
def envLits : List String :=
  ["        <tr><th colspan=\"2\">&nbsp;</th></tr>\n        <tr><th>NODE_ENV</th><td>",
   "</td></tr>\n", "\n"]

/-- The literals of the request branch. -/
def reqSomeLits : List String :=
  [methodRowLit, hrefRowLit, ipRowLit, headersHdrLit,
   "        <tr><th>original url</th><td>", "</td></tr>\n",
   headerRowLit, "</th><td>", cookiesRowLit,
   "                <tr><th>", "</th><td>:</td><td style=\"word-break:break-all\">",
   "            </table>\n        </td></tr>\n"]

/-- The literals a page without a request context can contain. -/
def basePageLits : List String :=
  headLits ++ pkgLits ++ osLits ++ verLits ++ envLits ++ [noRequestLit] ++ [tailLit]

/-- The literals any page can contain. -/
def pageLits : List String := basePageLits ++ reqSomeLits

/-- Boolean prefix test. -/
def okPrefB : List Char → List Char → Bool
  | [], _ => true
  | _ :: _, [] => false
  | a :: as, b :: bs => a == b && okPrefB as bs

/-- Boolean suffix test. -/
def okSufB (p c : List Char) : Bool := okPrefB p.reverse c.reverse

/-- Boolean infix test. -/
def okSubB (p : List Char) : List Char → Bool
  | [] => p.isEmpty
  | c :: t => okPrefB p (c :: t) || okSubB p t

/-- Boolean form of `chunkOk`. -/
def chunkOkB (pat c : List Char) : Bool :=
  !(c.contains '<') || (!(okSubB pat c) && pat.inits.all (fun p => p.isEmpty || !(okSufB p c)))

/-- Everything the page renders after the `{{{styleOverride}}}` slot and the
fixed text that follows it. -/
def pageAfterStyle (h : Host) (rctx : Option Request) : String :=
  hbEscape h.nodeVersion ++ headLit3
    ++ strJoin ((pkgChunks h.packageJson ++ osChunks h ++ versionsChunks h.versions
        ++ envChunks h.nodeEnv ++ reqChunks rctx ++ [Chunk.lit tailLit]).map Chunk.render)

/-- A small concrete host snapshot. -/
def demoHost : Host :=
  { hostname := "demo", ostype := "Linux", platform := "linux", release := "6.1.0",
    cpus := [("Xeon", 2400)], uptime := 3600, loadavg := [1, 2, 3],
    totalmem := 1024, freemem := 512, nodeVersion := "v16.0.0",
    versions := [("node", "16.0.0"), ("v8", "9.0")], nodeEnv := none,
    rss := 1000, heapTotal := 2000, heapUsed := 1500,
    intlTimezone := "UTC", dateTzOffset := "GMT+0000 (Coordinated Universal Time)",
    packageJson := none }

/-- A default socket. -/
def demoSocket : Socket := { encrypted := false, remoteAddress := some ("10.0.0.1") }

/-- Request used for the C1 counterexample: it carries a cookie header. -/
def c1hs : Headers := [("host", "example.com"), ("cookie", "a=1")]

/-- Request used for the C1 counterexample. -/
def c1req : Request :=
  { method := "GET", url := "/", headers := some c1hs,
    socket := demoSocket,
    connection := { remoteAddress := some ("10.0.0.1"), socket := none },
    showOriginalUrl := false, originalUrl := none,
    href := none, ip_addr := none, cookies := none }

/-- The request the C1 call returns (extracted from the call itself). -/
def c1r2 : Request :=
  match collectReq c1req c1hs with
  | Except.ok r => r
  | Except.error _ => c1req

/-- Whether a call leaves the supplied request object unchanged. -/
def requestUnchanged (h : Host) (r : Request) (o : Option Options) : Bool :=
  match nodeinfoFull h (some r) o with
  | Except.ok (_, r2) => decide (r2 = some r)
  | Except.error _ => false

/-- Headers used for the C4 witness. -/
def c4hs : Headers := [("host", "example.com"), ("x-injected", "<script>alert(1)")]

/-- Request used for the C4 witness. -/
def c4req : Request :=
  { method := "GET", url := "/", headers := some c4hs,
    socket := demoSocket,
    connection := { remoteAddress := some ("10.0.0.1"), socket := none },
    showOriginalUrl := false, originalUrl := none,
    href := none, ip_addr := none, cookies := none }

/-- The collected request of the C4 witness. -/
def c4r2 : Request :=
  match collectReq c4req c4hs with
  | Except.ok r => r
  | Except.error _ => c4req

/-- Headers used for the C5 counterexample: an x-forwarded-for header that is
present but empty. -/
def c5hs : Headers := [("host", "example.com"), ("x-forwarded-for", "")]

/-- Request used for the C5 counterexample: connection-level remote address
present but empty, socket-level one nonempty. -/
def c5req : Request :=
  { method := "GET", url := "/", headers := some c5hs,
    socket := demoSocket,
    connection := { remoteAddress := some (""), socket := none },
    showOriginalUrl := false, originalUrl := none,
    href := none, ip_addr := none, cookies := none }

/-- The collected request of the C5 counterexample. -/
def c5r2 : Request :=
  match collectReq c5req c5hs with
  | Except.ok r => r
  | Except.error _ => c5req

/-- Headers used for the C3 witness. -/
def c3hs : Headers := [("host", "example.com"), ("cookie", "a=1; b=2"), ("accept", "text/html")]

/-- Request used for the C3 witness. -/
def c3req : Request :=
  { method := "GET", url := "/", headers := some c3hs,
    socket := demoSocket,
    connection := { remoteAddress := some ("10.0.0.1"), socket := none },
    showOriginalUrl := false, originalUrl := none,
    href := none, ip_addr := none, cookies := none }

/-- The collected request of the C3 witness. -/
def c3r2 : Request :=
  match collectReq c3req c3hs with
  | Except.ok r => r
  | Except.error _ => c3req

/-- Headers used for the C6 witness. -/
def c6hs : Headers := [("host", "example.com"), ("x-forwarded-proto", "https")]

/-- Request used for the C6 witness. -/
def c6req : Request :=
  { method := "GET", url := "/path?q=1", headers := some c6hs,
    socket := demoSocket,
    connection := { remoteAddress := some ("10.0.0.1"), socket := none },
    showOriginalUrl := false, originalUrl := none,
    href := none, ip_addr := none, cookies := none }

/-- The collected request of the C6 witness. -/
def c6r2 : Request :=
  match collectReq c6req c6hs with
  | Except.ok r => r
  | Except.error _ => c6req

/-- Request without a headers field, used for the C2 and C10 witnesses. -/
def noHdrReq : Request :=
  { method := "GET", url := "/", headers := none,
    socket := demoSocket,
    connection := { remoteAddress := some ("10.0.0.1"), socket := none },
    showOriginalUrl := false, originalUrl := none,
    href := none, ip_addr := none, cookies := none }

/-- The literal chunks that open the request-derived rows: the method row, the
href row, the remote-ip row, a header row, and the cookies row. -/
def requestRowLits : List String :=
  [methodRowLit, hrefRowLit, ipRowLit, headerRowLit, cookiesRowLit]

/-- Follows the words of claim C5, not the source: the displayed client address
is the x-forwarded-for header value followed by `" via "` and the transport
peer address whenever that header is PRESENT, and otherwise the peer address
obtained by taking the first DEFINED (not merely truthy) of the
connection-level remote address, the socket-level remote address, and the
connection's nested socket's remote address. -/
def specIpAddr (conn : Connection) (sock : Socket) (hs : Headers) : Option String :=
  let peer : Option String :=
    match conn.remoteAddress with
    | some a => some a
    | none =>
      match sock.remoteAddress with
      | some a => some a
      | none =>
        match conn.socket with
        | some s => s.remoteAddress
        | none => none
  match hLookup hs ("x-forwarded-for") with
  | some xff => some (xff ++ " via " ++ jsS peer)
  | none => peer

/-! ## Theorems -/

theorem bump_fst {α : Type} [DecidableEq α] (m : List (α × Nat)) (k : α) :
    (bump m k).map Prod.fst =
      if m.any (fun kv => kv.1 = k) then m.map Prod.fst else m.map Prod.fst ++ [k] := by
  unfold bump
  split
  · simp only [List.map_map]
    apply List.map_congr_left
    intro kv _
    by_cases hkv : kv.1 = k <;> simp [Function.comp, hkv]
  · simp

theorem bump_nodup {α : Type} [DecidableEq α] (m : List (α × Nat)) (k : α)
    (h : (m.map Prod.fst).Nodup) : ((bump m k).map Prod.fst).Nodup := by
  rw [bump_fst]
  split
  · exact h
  · next hany =>
    rw [List.nodup_append]
    refine ⟨h, List.nodup_singleton k, ?_⟩
    intro a ha
    simp only [List.any_eq_true, decide_eq_true_eq] at hany
    simp only [List.mem_map] at ha
    obtain ⟨kv, hkv, rfl⟩ := ha
    simp only [List.mem_singleton]
    intro hk
    exact hany ⟨kv, hkv, hk⟩

theorem inc_sum {α : Type} [DecidableEq α] (k : α) (m : List (α × Nat)) :
    (m.map Prod.fst).Nodup → m.any (fun kv => kv.1 = k) = true →
    ((m.map (fun kv => if kv.1 = k then (kv.1, kv.2 + 1) else kv)).map Prod.snd).sum
      = (m.map Prod.snd).sum + 1 := by
  induction m with
  | nil => intro _ hany; simp at hany
  | cons kv rest ih =>
    intro hnd hany
    simp only [List.map_cons, List.nodup_cons] at hnd
    by_cases hkv : kv.1 = k
    · have hrest : ∀ e ∈ rest, (if e.1 = k then (e.1, e.2 + 1) else e) = id e := by
        intro e he
        have hek : e.1 ≠ k := by
          intro hek
          exact hnd.1 (hkv ▸ hek ▸ List.mem_map_of_mem Prod.fst he)
        simp [hek]
      simp only [List.map_cons, if_pos hkv, List.map_congr_left hrest, List.map_id, List.sum_cons]
      omega
    · have hany2 : rest.any (fun e => e.1 = k) = true := by
        simp only [List.any_cons, hkv] at hany
        simpa using hany
      simp only [List.map_cons, if_neg hkv, List.sum_cons, ih hnd.2 hany2]
      omega

theorem bump_sum {α : Type} [DecidableEq α] (m : List (α × Nat)) (k : α)
    (h : (m.map Prod.fst).Nodup) :
    ((bump m k).map Prod.snd).sum = (m.map Prod.snd).sum + 1 := by
  unfold bump
  split
  · next hany => exact inc_sum k m h hany
  · simp

theorem bump_mem_fst {α : Type} [DecidableEq α] (m : List (α × Nat)) (k a : α) :
    a ∈ (bump m k).map Prod.fst ↔ a ∈ m.map Prod.fst ∨ a = k := by
  rw [bump_fst]
  split
  · next hany =>
    simp only [List.any_eq_true, decide_eq_true_eq] at hany
    obtain ⟨kv, hkv, hk⟩ := hany
    constructor
    · exact Or.inl
    · rintro (h | rfl)
      · exact h
      · exact hk ▸ List.mem_map_of_mem Prod.fst hkv
  · simp

theorem countMap_rec {α : Type} [DecidableEq α] (l : List α) :
    ∀ (m : List (α × Nat)), (m.map Prod.fst).Nodup →
    (((l.foldl bump m).map Prod.fst).Nodup ∧
     ((l.foldl bump m).map Prod.snd).sum = (m.map Prod.snd).sum + l.length ∧
     (∀ a, a ∈ (l.foldl bump m).map Prod.fst ↔ a ∈ m.map Prod.fst ∨ a ∈ l)) := by
  induction l with
  | nil => intro m hm; simpa using hm
  | cons x l ih =>
    intro m hm
    have hx := ih (bump m x) (bump_nodup m x hm)
    refine ⟨hx.1, ?_, ?_⟩
    · rw [List.foldl_cons, hx.2.1, bump_sum m x hm, List.length_cons]
      omega
    · intro a
      rw [List.foldl_cons, hx.2.2 a, bump_mem_fst m x a, List.mem_cons]
      tauto

theorem countMap_nodup {α : Type} [DecidableEq α] (l : List α) :
    ((countMap l).map Prod.fst).Nodup :=
  (countMap_rec l [] (by simp)).1

theorem countMap_sum {α : Type} [DecidableEq α] (l : List α) :
    ((countMap l).map Prod.snd).sum = l.length := by
  have := (countMap_rec l [] (by simp)).2.1
  simpa using this

theorem countMap_mem {α : Type} [DecidableEq α] (l : List α) (a : α) :
    a ∈ (countMap l).map Prod.fst ↔ a ∈ l := by
  have := (countMap_rec l [] (by simp)).2.2 a
  simpa using this

theorem insertByKey_perm (p : Nat × Nat) (l : List (Nat × Nat)) :
    List.Perm (insertByKey p l) (p :: l) := by
  induction l with
  | nil => exact List.Perm.refl _
  | cons q qs ih =>
    unfold insertByKey
    split
    · exact List.Perm.refl _
    · exact (ih.cons q).trans (List.Perm.swap p q qs)

theorem sortByKey_perm (l : List (Nat × Nat)) : List.Perm (sortByKey l) l := by
  induction l with
  | nil => exact List.Perm.refl _
  | cons x l ih => exact (insertByKey_perm x (sortByKey l)).trans (ih.cons x)

/-- Claim C7: for every CPU list, the formatted CPU summary has exactly one
entry per distinct model string (the entry keys are pairwise distinct and cover
exactly the models occurring in the list) and one entry per distinct speed
value, the counts in each grouping sum to the total CPU count, each entry is
rendered as `"<count> × <value>"`, entries are joined by `", "`, and the speed
grouping carries a single `" MHz"` suffix on the whole joined string. -/
theorem cpu_summary_grouping (cpus : List (String × Nat)) :
    ((cpuModelEntries cpus).map Prod.fst).Nodup ∧
    (∀ m, m ∈ (cpuModelEntries cpus).map Prod.fst ↔ m ∈ cpus.map Prod.fst) ∧
    ((cpuModelEntries cpus).map Prod.snd).sum = cpus.length ∧
    ((cpuSpeedEntries cpus).map Prod.fst).Nodup ∧
    (∀ s, s ∈ (cpuSpeedEntries cpus).map Prod.fst ↔ s ∈ cpus.map Prod.snd) ∧
    ((cpuSpeedEntries cpus).map Prod.snd).sum = cpus.length ∧
    cpuModelStr cpus
      = String.intercalate (", ") ((cpuModelEntries cpus).map (fun kv => natStr kv.2 ++ " × " ++ kv.1)) ∧
    cpuSpeedStr cpus
      = String.intercalate (", ")
          ((cpuSpeedEntries cpus).map (fun kv => natStr kv.2 ++ " × " ++ natStr kv.1)) ++ " MHz" := by
  have hperm : List.Perm (cpuSpeedEntries cpus) (countMap (cpus.map (fun c => c.2))) := by
    unfold cpuSpeedEntries
    exact sortByKey_perm _
  refine ⟨?_, ?_, ?_, ?_, ?_, ?_, rfl, rfl⟩
  · exact countMap_nodup _
  · intro m
    have := countMap_mem (cpus.map (fun c => c.1)) m
    simpa [cpuModelEntries] using this
  · have := countMap_sum (cpus.map (fun c => c.1))
    simpa [cpuModelEntries] using this
  · exact (hperm.map Prod.fst).nodup_iff.mpr (countMap_nodup _)
  · intro s
    rw [List.Perm.mem_iff (hperm.map Prod.fst)]
    have := countMap_mem (cpus.map (fun c => c.2)) s
    simpa using this
  · rw [List.Perm.sum_eq (hperm.map Prod.snd)]
    have := countMap_sum (cpus.map (fun c => c.2))
    simpa using this

/-- Digits produced by the decimal printer. -/
theorem natCharsAux_digits (fuel : Nat) :
    ∀ (n : Nat) (c : Char), c ∈ natCharsAux fuel n → ∃ d, d < 10 ∧ c = digitChar10 d := by
  induction fuel with
  | zero => intro n c hc; simp [natCharsAux] at hc
  | succ fuel ih =>
    intro n c hc
    unfold natCharsAux at hc
    split at hc
    · refine ⟨n % 10, Nat.mod_lt n (by omega), ?_⟩
      simp only [List.mem_singleton] at hc
      subst hc
      simp [digitChar10, Nat.mod_eq_of_lt (Nat.mod_lt n (by omega : 0 < 10))]
    · rw [List.mem_append] at hc
      rcases hc with hc | hc
      · exact ih (n / 10) c hc
      · refine ⟨n % 10, Nat.mod_lt n (by omega), ?_⟩
        simp only [List.mem_singleton] at hc
        subst hc
        simp [digitChar10, Nat.mod_eq_of_lt (Nat.mod_lt n (by omega : 0 < 10))]

/-- The decimal printer for naturals emits only decimal digit characters. -/
theorem natStr_digits (n : Nat) (c : Char) (hc : c ∈ (natStr n).data) : c.isDigit := by
  obtain ⟨d, hd, rfl⟩ := natCharsAux_digits (n + 1) n c hc
  have hdd : ∀ e, e < 10 → (digitChar10 e).isDigit := by decide
  have h10 : d % 10 < 10 := Nat.mod_lt d (by omega)
  have := hdd (d % 10) h10
  simpa [digitChar10, Nat.mod_eq_of_lt h10] using this

/-- For a natural argument, `intStr` is `natStr`. -/
theorem intStr_ofNat (n : Nat) : intStr (n : Int) = natStr n := by
  simp [intStr, Int.natAbs_ofNat]

/-- Claim C8: for every positive total-memory value the free-memory percentage
is `Math.round(free/total*100)` — here `jsRound` of the exact rational quotient
— and it renders as a plain integer (decimal digits, no decimal point); in
particular total 1000 and free 250 render as exactly `"25"`. -/
theorem freemem_percent_formula (freemem totalmem : Nat) (h : 0 < totalmem) :
    freememPercent freemem totalmem
      = JsNum.int (jsRound ((freemem : ℚ) / (totalmem : ℚ) * 100)) ∧
    freememPercentStr freemem totalmem
      = intStr (jsRound ((freemem : ℚ) / (totalmem : ℚ) * 100)) ∧
    (∀ c ∈ (freememPercentStr freemem totalmem).data, c.isDigit ∧ c ≠ '.') ∧
    freememPercentStr 250 1000 = "25" := by
  have htm : totalmem ≠ 0 := by omega
  have htq : ((totalmem : ℚ)) ≠ 0 := by exact_mod_cast htm
  have hkey : jsRound ((freemem : ℚ) / (totalmem : ℚ) * 100)
      = (((200 * freemem + totalmem) / (2 * totalmem) : Nat) : Int) := by
    have hq : (freemem : ℚ) / (totalmem : ℚ) * 100 + 1/2
        = ((200 * freemem + totalmem : Nat) : ℚ) / ((2 * totalmem : Nat) : ℚ) := by
      field_simp
      ring
    rw [jsRound, hq, Rat.floor_natCast_div_natCast]
    exact (Int.ofNat_tdiv _ _).symm
  have h1 : freememPercent freemem totalmem
      = JsNum.int (jsRound ((freemem : ℚ) / (totalmem : ℚ) * 100)) := by
    rw [hkey]
    simp [freememPercent, htm]
  refine ⟨h1, ?_, ?_, by decide⟩
  · simp [freememPercentStr, h1, JsNum.render]
  · intro c hc
    have hstr : freememPercentStr freemem totalmem
        = natStr ((200 * freemem + totalmem) / (2 * totalmem)) := by
      simp only [freememPercentStr, freememPercent, if_neg htm, JsNum.render, intStr_ofNat]
    rw [hstr] at hc
    have hdig := natStr_digits _ c hc
    refine ⟨hdig, ?_⟩
    intro hdot
    subst hdot
    simp [Char.isDigit] at hdig

/-- Witness for C8 at free 250, total 1000. -/
theorem freemem_percent_formula_witness :
    0 < 1000 ∧
    (freememPercent 250 1000 = JsNum.int (jsRound ((250 : ℚ) / (1000 : ℚ) * 100)) ∧
     freememPercentStr 250 1000 = intStr (jsRound ((250 : ℚ) / (1000 : ℚ) * 100)) ∧
     (∀ c ∈ (freememPercentStr 250 1000).data, c.isDigit ∧ c ≠ '.') ∧
     freememPercentStr 250 1000 = "25") := by
  have h := freemem_percent_formula 250 1000 (by decide)
  refine ⟨by decide, ?_⟩
  have hc : ((250 : Nat) : ℚ) = (250 : ℚ) := by push_cast; ring
  have hc2 : ((1000 : Nat) : ℚ) = (1000 : ℚ) := by push_cast; ring
  rw [hc, hc2] at h
  exact h

/-- Counterexample to claim C9 as stated: at zero total memory and zero free
memory the code renders the free-memory percentage as `"NaN"` (the IEEE value
of `round(0/0*100)`), which is not a numeric fallback such as `"0"` — not even
a digit string. -/
theorem degenerate_percent_counterexample :
    freememPercentStr 0 0 = "NaN" ∧ ¬ (∀ c ∈ (freememPercentStr 0 0).data, c.isDigit) := by
  constructor
  · rfl
  · decide

/-- Claim C9 as amended: with degenerate host facts the formatting functions
are total (they never throw), and the values they produce are: percentage
`"NaN"` when free and total memory are both zero, `"Infinity"` when only total
is zero, and empty groupings (`""` and `" MHz"`) for an empty CPU list —
rather than a numeric fallback such as `"0"`. -/
theorem degenerate_formatting (freemem : Nat) :
    freememPercentStr freemem 0 = (if freemem = 0 then "NaN" else "Infinity") ∧
    cpuModelStr [] = "" ∧
    cpuSpeedStr [] = " MHz" := by
  refine ⟨?_, rfl, rfl⟩
  by_cases hf : freemem = 0 <;> simp [freememPercentStr, freememPercent, hf, JsNum.render]

theorem prefix_split {α : Type} (pat a b : List α) (h : pat <+: a ++ b) :
    pat <+: a ∨ ∃ q, pat = a ++ q ∧ q <+: b := by
  induction a generalizing pat with
  | nil => exact Or.inr ⟨pat, rfl, h⟩
  | cons x a ih =>
    cases pat with
    | nil => exact Or.inl (List.nil_prefix)
    | cons y pat =>
      rw [List.cons_append, List.cons_prefix_cons] at h
      obtain ⟨rfl, h2⟩ := h
      rcases ih pat h2 with h3 | ⟨q, rfl, hq⟩
      · exact Or.inl (List.cons_prefix_cons.mpr ⟨rfl, h3⟩)
      · exact Or.inr ⟨q, rfl, hq⟩

theorem infix_split {α : Type} (pat a b : List α) (h : pat <:+: a ++ b) :
    pat <:+: a ∨ pat <:+: b ∨
      ∃ p q, pat = p ++ q ∧ p ≠ [] ∧ q ≠ [] ∧ p <:+ a ∧ q <+: b := by
  induction a with
  | nil =>
    rw [List.nil_append] at h
    exact Or.inr (Or.inl h)
  | cons x a ih =>
    rw [List.cons_append, List.infix_cons_iff] at h
    rcases h with hpre | hinf
    · rcases prefix_split pat (x :: a) b (by rwa [List.cons_append]) with h1 | ⟨q, rfl, hq⟩
      · exact Or.inl h1.isInfix
      · cases q with
        | nil =>
          rw [List.append_nil]
          exact Or.inl (List.infix_rfl)
        | cons y q2 =>
          refine Or.inr (Or.inr ⟨x :: a, y :: q2, rfl, by simp, by simp, List.suffix_rfl, hq⟩)
    · rcases ih hinf with h1 | h2 | ⟨p, q, rfl, hp, hq, hpa, hqb⟩
      · exact Or.inl (h1.trans (List.infix_cons List.infix_rfl))
      · exact Or.inr (Or.inl h2)
      · exact Or.inr (Or.inr ⟨p, q, rfl, hp, hq, hpa.trans (List.suffix_cons x a), hqb⟩)

theorem chunkOk_flatten (t : List Char) (L : List (List Char))
    (hL : ∀ c ∈ L, chunkOk ('<' :: t) c) : ¬ ('<' :: t) <:+: L.flatten := by
  induction L with
  | nil =>
    intro h
    obtain ⟨s, u, hsu⟩ := h
    simp at hsu
  | cons c L ih =>
    intro h
    rw [List.flatten_cons] at h
    rcases infix_split _ c L.flatten h with h1 | h2 | ⟨p, q, hpq, hp, hq, hpc, hqL⟩
    · rcases hL c (List.mem_cons_self c L) with hlt | ⟨hninf, _⟩
      · exact hlt (h1.subset (List.mem_cons_self '<' t))
      · exact hninf h1
    · exact ih (fun d hd => hL d (List.mem_cons_of_mem c hd)) h2
    · have hp_pre : p <+: '<' :: t := ⟨q, hpq.symm⟩
      cases p with
      | nil => exact hp rfl
      | cons y p2 =>
        have hy : y = '<' := (List.cons_prefix_cons.mp hp_pre).1
        rcases hL c (List.mem_cons_self c L) with hlt | ⟨_, hsuf⟩
        · subst hy
          exact hlt (hpc.subset (List.mem_cons_self '<' p2))
        · exact hsuf (y :: p2) ((List.mem_inits _ _).mpr hp_pre) (by simp) hpc

theorem hbEscapeChar_safe (c : Char) : '<' ∉ hbEscapeChar c ∧ '>' ∉ hbEscapeChar c := by
  unfold hbEscapeChar
  split_ifs with h1 h2 h3 h4 h5 h6 h7
  · decide
  · decide
  · decide
  · decide
  · decide
  · decide
  · decide
  · constructor
    · simp only [List.mem_singleton]
      exact fun hc => h2 hc.symm
    · simp only [List.mem_singleton]
      exact fun hc => h3 hc.symm

theorem hbEscape_safe (s : String) : '<' ∉ (hbEscape s).data ∧ '>' ∉ (hbEscape s).data := by
  constructor <;>
  · intro hmem
    simp only [hbEscape, hbEscapeList, List.mem_flatten, List.mem_map] at hmem
    obtain ⟨l, ⟨c, _, rfl⟩, hcl⟩ := hmem
    first
    | exact (hbEscapeChar_safe c).1 hcl
    | exact (hbEscapeChar_safe c).2 hcl

theorem hbEscapeList_append (a b : List Char) :
    hbEscapeList (a ++ b) = hbEscapeList a ++ hbEscapeList b := by
  simp [hbEscapeList, List.map_append, List.flatten_append]

theorem hbEscape_keeps_script (v : String) (h : "<script>".data <:+: v.data) :
    "&lt;script&gt;".data <:+: (hbEscape v).data := by
  obtain ⟨s, u, hsu⟩ := h
  refine ⟨hbEscapeList s, hbEscapeList u, ?_⟩
  have : (hbEscape v).data = hbEscapeList v.data := rfl
  rw [this, ← hsu, hbEscapeList_append, hbEscapeList_append]
  have hesc : hbEscapeList ("<script>".data) = "&lt;script&gt;".data := by decide
  rw [hesc]

theorem strJoin_data (L : List String) : (strJoin L).data = (L.map String.data).flatten := by
  induction L with
  | nil => rfl
  | cons s L ih => simp [strJoin, ih]

theorem infix_of_mem_strJoin (L : List String) (s : String) (hs : s ∈ L) :
    s.data <:+: (strJoin L).data := by
  obtain ⟨l1, l2, rfl⟩ := List.append_of_mem hs
  rw [strJoin_data]
  refine ⟨(l1.map String.data).flatten, (l2.map String.data).flatten, ?_⟩
  simp

theorem chunkFrom_mono {l1 l2 : List String} {sty : String} {ch : Chunk}
    (hsub : ∀ s ∈ l1, s ∈ l2) (h : ChunkFrom l1 sty ch) : ChunkFrom l2 sty ch := by
  rcases h with h | h | ⟨s, hs, rfl⟩
  · exact Or.inl h
  · exact Or.inr (Or.inl h)
  · exact Or.inr (Or.inr ⟨s, hsub s hs, rfl⟩)

theorem headChunks_from (h : Host) (sty : String) :
    ∀ ch ∈ headChunks h sty, ChunkFrom headLits sty ch := by
  intro ch hch
  fin_cases hch
  · exact Or.inr (Or.inr ⟨_, by simp [headLits], rfl⟩)
  · exact Or.inr (Or.inl rfl)
  · exact Or.inr (Or.inr ⟨_, by simp [headLits], rfl⟩)
  · exact Or.inl ⟨_, rfl⟩
  · exact Or.inr (Or.inr ⟨_, by simp [headLits], rfl⟩)

theorem chunkFrom_append {L1 L2 : List Chunk} {lits : List String} {sty : String}
    (h1 : ∀ ch ∈ L1, ChunkFrom lits sty ch) (h2 : ∀ ch ∈ L2, ChunkFrom lits sty ch) :
    ∀ ch ∈ L1 ++ L2, ChunkFrom lits sty ch := by
  intro ch hch
  rcases List.mem_append.mp hch with hch | hch
  · exact h1 ch hch
  · exact h2 ch hch

theorem pkgChunks_from (p : Option PackageJson) (sty : String) :
    ∀ ch ∈ pkgChunks p, ChunkFrom pkgLits sty ch := by
  cases p with
  | none => intro ch hch; simp [pkgChunks] at hch
  | some p =>
    have hA : ∀ ch ∈ pkgNameRow p.name, ChunkFrom pkgLits sty ch := by
      intro ch hch
      fin_cases hch <;>
        first
          | exact Or.inl ⟨_, rfl⟩
          | exact Or.inr (Or.inr ⟨_, by simp [pkgLits], rfl⟩)
    have hD : ∀ ch ∈ pkgDescChunks p.description, ChunkFrom pkgLits sty ch := by
      rcases p.description with _ | d
      · intro ch hch; simp [pkgDescChunks] at hch
      · by_cases hdd : d.isEmpty
        · intro ch hch; simp [pkgDescChunks, hdd] at hch
        · intro ch hch
          rw [pkgDescChunks, if_neg hdd] at hch
          fin_cases hch <;>
            first
              | exact Or.inl ⟨_, rfl⟩
              | exact Or.inr (Or.inr ⟨_, by simp [pkgLits], rfl⟩)
    have hV : ∀ ch ∈ pkgVersionRow p.version, ChunkFrom pkgLits sty ch := by
      intro ch hch
      fin_cases hch <;>
        first
          | exact Or.inl ⟨_, rfl⟩
          | exact Or.inr (Or.inr ⟨_, by simp [pkgLits], rfl⟩)
    have hK : ∀ ch ∈ pkgDepsChunks p.dependencies, ChunkFrom pkgLits sty ch := by
      rcases p.dependencies with _ | ks
      · intro ch hch; simp [pkgDepsChunks] at hch
      · by_cases hks : (depsStr ks).isEmpty
        · intro ch hch; simp [pkgDepsChunks, hks] at hch
        · intro ch hch
          rw [pkgDepsChunks, if_neg hks] at hch
          fin_cases hch <;>
            first
              | exact Or.inl ⟨_, rfl⟩
              | exact Or.inr (Or.inr ⟨_, by simp [pkgLits], rfl⟩)
    exact chunkFrom_append (chunkFrom_append (chunkFrom_append hA hD) hV) hK

theorem osChunks_from (h : Host) (sty : String) :
    ∀ ch ∈ osChunks h, ChunkFrom osLits sty ch := by
  intro ch hch
  fin_cases hch <;>
    first
      | exact Or.inl ⟨_, rfl⟩
      | exact Or.inr (Or.inr ⟨_, by simp [osLits], rfl⟩)

theorem versionsChunks_from (vs : List (String × String)) (sty : String) :
    ∀ ch ∈ versionsChunks vs, ChunkFrom verLits sty ch := by
  intro ch hch
  rcases List.mem_append.mp hch with hch | hch
  · obtain ⟨l, hl, hch⟩ := List.mem_flatten.mp hch
    obtain ⟨kv, _, rfl⟩ := List.mem_map.mp hl
    fin_cases hch <;>
      first
        | exact Or.inl ⟨_, rfl⟩
        | exact Or.inr (Or.inr ⟨_, by simp [verLits], rfl⟩)
  · fin_cases hch
    exact Or.inr (Or.inr ⟨_, by simp [verLits], rfl⟩)

theorem envChunks_from (e : Option String) (sty : String) :
    ∀ ch ∈ envChunks e, ChunkFrom envLits sty ch := by
  intro ch hch
  rw [envChunks] at hch
  rcases List.mem_append.mp hch with hch | hch
  · rcases e with _ | s
    · simp [envRows] at hch
    · by_cases hs : s.isEmpty
      · simp [envRows, hs] at hch
      · rw [envRows, if_neg hs] at hch
        fin_cases hch <;>
          first
            | exact Or.inl ⟨_, rfl⟩
            | exact Or.inr (Or.inr ⟨_, by simp [envLits], rfl⟩)
  · fin_cases hch
    exact Or.inr (Or.inr ⟨_, by simp [envLits], rfl⟩)

theorem reqChunks_some_from (r : Request) (sty : String) :
    ∀ ch ∈ reqChunks (some r), ChunkFrom reqSomeLits sty ch := by
  intro ch hch
  rw [reqChunks] at hch
  have hlit : ∀ s, s ∈ reqSomeLits → ChunkFrom reqSomeLits sty (Chunk.lit s) :=
    fun s hs => Or.inr (Or.inr ⟨s, hs, rfl⟩)
  rcases List.mem_append.mp hch with hch | hch
  · rcases List.mem_append.mp hch with hch | hch
    · rcases List.mem_append.mp hch with hch | hch
      · rcases List.mem_append.mp hch with hch | hch
        · rcases List.mem_append.mp hch with hch | hch
          · fin_cases hch <;>
              first
                | exact Or.inl ⟨_, rfl⟩
                | exact hlit _ (by simp [reqSomeLits])
          · by_cases hso : r.showOriginalUrl <;> simp only [hso, ite_true, ite_false] at hch
            · fin_cases hch <;>
                first
                  | exact Or.inl ⟨_, rfl⟩
                  | exact hlit _ (by simp [reqSomeLits])
            · simp at hch
        · obtain ⟨l, hl, hch⟩ := List.mem_flatten.mp hch
          obtain ⟨kv, _, rfl⟩ := List.mem_map.mp hl
          fin_cases hch <;>
            first
              | exact Or.inl ⟨_, rfl⟩
              | exact hlit _ (by simp [reqSomeLits])
      · fin_cases hch
        exact hlit _ (by simp [reqSomeLits])
    · obtain ⟨l, hl, hch⟩ := List.mem_flatten.mp hch
      obtain ⟨kv, _, rfl⟩ := List.mem_map.mp hl
      fin_cases hch <;>
        first
          | exact Or.inl ⟨_, rfl⟩
          | exact hlit _ (by simp [reqSomeLits])
  · fin_cases hch
    exact hlit _ (by simp [reqSomeLits])

theorem reqChunks_none_from (sty : String) :
    ∀ ch ∈ reqChunks none, ChunkFrom [noRequestLit] sty ch := by
  intro ch hch
  fin_cases hch
  exact Or.inr (Or.inr ⟨_, by simp, rfl⟩)

theorem pageChunks_from (h : Host) (rctx : Option Request) (sty : String) :
    ∀ ch ∈ pageChunks h rctx sty, ChunkFrom pageLits sty ch := by
  intro ch hch
  rw [pageChunks] at hch
  have hbase : ∀ s, s ∈ basePageLits → s ∈ pageLits := by
    intro s hs
    simp only [pageLits, List.mem_append]
    exact Or.inl hs
  rcases List.mem_append.mp hch with hch | hch
  · rcases List.mem_append.mp hch with hch | hch
    · rcases List.mem_append.mp hch with hch | hch
      · rcases List.mem_append.mp hch with hch | hch
        · rcases List.mem_append.mp hch with hch | hch
          · rcases List.mem_append.mp hch with hch | hch
            · refine chunkFrom_mono ?_ (headChunks_from h sty ch hch)
              intro s hs
              exact hbase s (by simp [basePageLits, hs])
            · refine chunkFrom_mono ?_ (pkgChunks_from h.packageJson sty ch hch)
              intro s hs
              exact hbase s (by simp [basePageLits, hs])
          · refine chunkFrom_mono ?_ (osChunks_from h sty ch hch)
            intro s hs
            exact hbase s (by simp [basePageLits, hs])
        · refine chunkFrom_mono ?_ (versionsChunks_from h.versions sty ch hch)
          intro s hs
          exact hbase s (by simp [basePageLits, hs])
      · refine chunkFrom_mono ?_ (envChunks_from h.nodeEnv sty ch hch)
        intro s hs
        exact hbase s (by simp [basePageLits, hs])
    · cases rctx with
      | none =>
        refine chunkFrom_mono ?_ (reqChunks_none_from sty ch hch)
        intro s hs
        simp only [List.mem_singleton] at hs
        subst hs
        exact hbase _ (by simp [basePageLits])
      | some r =>
        refine chunkFrom_mono ?_ (reqChunks_some_from r sty ch hch)
        intro s hs
        simp only [pageLits, List.mem_append]
        exact Or.inr hs
  · fin_cases hch
    exact Or.inr (Or.inr ⟨_, hbase _ (by simp [basePageLits]), rfl⟩)

theorem pageChunks_none_from (h : Host) (sty : String) :
    ∀ ch ∈ pageChunks h none sty, ChunkFrom basePageLits sty ch := by
  intro ch hch
  rw [pageChunks] at hch
  rcases List.mem_append.mp hch with hch | hch
  · rcases List.mem_append.mp hch with hch | hch
    · rcases List.mem_append.mp hch with hch | hch
      · rcases List.mem_append.mp hch with hch | hch
        · rcases List.mem_append.mp hch with hch | hch
          · rcases List.mem_append.mp hch with hch | hch
            · refine chunkFrom_mono ?_ (headChunks_from h sty ch hch)
              intro s hs
              simp [basePageLits, hs]
            · refine chunkFrom_mono ?_ (pkgChunks_from h.packageJson sty ch hch)
              intro s hs
              simp [basePageLits, hs]
          · refine chunkFrom_mono ?_ (osChunks_from h sty ch hch)
            intro s hs
            simp [basePageLits, hs]
        · refine chunkFrom_mono ?_ (versionsChunks_from h.versions sty ch hch)
          intro s hs
          simp [basePageLits, hs]
      · refine chunkFrom_mono ?_ (envChunks_from h.nodeEnv sty ch hch)
        intro s hs
        simp [basePageLits, hs]
    · refine chunkFrom_mono ?_ (reqChunks_none_from sty ch hch)
      intro s hs
      simp only [List.mem_singleton] at hs
      subst hs
      simp [basePageLits]
  · fin_cases hch
    exact Or.inr (Or.inr ⟨_, by simp [basePageLits], rfl⟩)

theorem okPrefB_iff (p : List Char) : ∀ l, okPrefB p l = true ↔ p <+: l := by
  induction p with
  | nil => intro l; simp [okPrefB]
  | cons a as ih =>
    intro l
    cases l with
    | nil => simp [okPrefB]
    | cons b bs =>
      rw [okPrefB, Bool.and_eq_true, beq_iff_eq, List.cons_prefix_cons, ih bs]

theorem okSufB_iff (p c : List Char) : okSufB p c = true ↔ p <:+ c := by
  rw [okSufB, okPrefB_iff, List.reverse_prefix]

theorem okSubB_iff (p : List Char) : ∀ l, okSubB p l = true ↔ p <:+: l := by
  intro l
  induction l with
  | nil =>
    rw [okSubB]
    constructor
    · intro h
      rw [List.isEmpty_iff] at h
      subst h
      exact List.infix_rfl
    · rintro ⟨s, t, hst⟩
      rw [List.isEmpty_iff]
      rcases List.append_eq_nil.mp hst with ⟨h1, _⟩
      exact (List.append_eq_nil.mp h1).2
  | cons c t ih =>
    rw [okSubB, Bool.or_eq_true, okPrefB_iff, ih, List.infix_cons_iff]

theorem contains_iff_mem (c : Char) (l : List Char) : l.contains c = true ↔ c ∈ l := by
  show l.elem c = true ↔ c ∈ l
  exact List.elem_iff

theorem chunkOkB_iff (pat c : List Char) : chunkOkB pat c = true → chunkOk pat c := by
  intro h
  rw [chunkOkB, Bool.or_eq_true, Bool.not_eq_true', Bool.and_eq_true, Bool.not_eq_true',
    List.all_eq_true] at h
  rcases h with h | ⟨h1, h2⟩
  · refine Or.inl ?_
    intro hmem
    rw [← contains_iff_mem] at hmem
    rw [h] at hmem
    exact Bool.false_ne_true hmem
  · refine Or.inr ⟨?_, ?_⟩
    · intro hinf
      rw [← okSubB_iff] at hinf
      rw [h1] at hinf
      exact Bool.false_ne_true hinf
    · intro p hp hpne hsuf
      have := h2 p hp
      rw [Bool.or_eq_true, Bool.not_eq_true'] at this
      rcases this with hthis | hthis
      · exact hpne (List.isEmpty_iff.mp hthis)
      · rw [← okSufB_iff] at hsuf
        rw [hthis] at hsuf
        exact Bool.false_ne_true hsuf

theorem pageLits_okB :
    pageLits.all (fun s => chunkOkB ('<' :: "script>".data) s.data) = true := by decide

theorem pageLits_ok : ∀ s ∈ pageLits, chunkOk ('<' :: "script>".data) s.data := by
  intro s hs
  exact chunkOkB_iff _ _ (List.all_eq_true.mp pageLits_okB s hs)

theorem page_no_script (h : Host) (rctx : Option Request) :
    ¬ ("<script>".data <:+: (renderPage h rctx "").data) := by
  have hpat : "<script>".data = '<' :: "script>".data := rfl
  rw [hpat, renderPage, strJoin_data]
  apply chunkOk_flatten
  intro c hc
  obtain ⟨s, hs, rfl⟩ := List.mem_map.mp hc
  obtain ⟨ch, hch, rfl⟩ := List.mem_map.mp hs
  rcases pageChunks_from h rctx "" ch hch with ⟨t2, rfl⟩ | rfl | ⟨t2, ht2, rfl⟩
  · exact Or.inl (hbEscape_safe t2).1
  · exact Or.inl (by simp [Chunk.render])
  · exact pageLits_ok t2 ht2

theorem strJoin_append (a b : List String) : strJoin (a ++ b) = strJoin a ++ strJoin b := by
  induction a with
  | nil => simp [strJoin]
  | cons s a ih => simp [strJoin, ih, String.append_assoc]

theorem renderPage_decomp (h : Host) (rctx : Option Request) (sty : String) :
    renderPage h rctx sty = headLit1 ++ sty ++ headLit2 ++ pageAfterStyle h rctx := by
  rw [renderPage, pageChunks, pageAfterStyle]
  rw [show headChunks h sty ++ pkgChunks h.packageJson ++ osChunks h
        ++ versionsChunks h.versions ++ envChunks h.nodeEnv ++ reqChunks rctx
        ++ [Chunk.lit tailLit]
      = headChunks h sty ++ (pkgChunks h.packageJson ++ osChunks h
        ++ versionsChunks h.versions ++ envChunks h.nodeEnv ++ reqChunks rctx
        ++ [Chunk.lit tailLit]) by simp [List.append_assoc]]
  rw [List.map_append, strJoin_append]
  simp [headChunks, strJoin, Chunk.render, String.append_assoc]

theorem mem_deleteCookie (hs : Headers) (kv : String × String)
    (h : kv ∈ hs) (hk : kv.1 ≠ "cookie") : kv ∈ deleteCookie hs := by
  induction hs with
  | nil => simp at h
  | cons e rest ih =>
    rw [deleteCookie]
    rcases List.mem_cons.mp h with rfl | h2
    · rw [if_neg hk]
      exact List.mem_cons_self _ _
    · split
      · exact ih h2
      · exact List.mem_cons_of_mem e (ih h2)

theorem deleteCookie_spec (hs : Headers) :
    ∀ kv ∈ deleteCookie hs, kv.1 ≠ "cookie" ∧ kv ∈ hs := by
  induction hs with
  | nil => intro kv hkv; simp [deleteCookie] at hkv
  | cons e rest ih =>
    intro kv hkv
    rw [deleteCookie] at hkv
    by_cases he : e.1 = "cookie"
    · rw [if_pos he] at hkv
      exact ⟨(ih kv hkv).1, List.mem_cons_of_mem e (ih kv hkv).2⟩
    · rw [if_neg he] at hkv
      rcases List.mem_cons.mp hkv with rfl | h2
      · exact ⟨he, List.mem_cons_self _ _⟩
      · exact ⟨(ih kv h2).1, List.mem_cons_of_mem e (ih kv h2).2⟩

theorem collectReq_spec (r : Request) (hs : Headers) (r2 : Request)
    (h : collectReq r hs = Except.ok r2) :
    ∃ peer, jsPeer r = Except.ok peer ∧
      r2 = { r with
        href := some ((if r.socket.encrypted ∨ hLookup hs ("x-forwarded-proto") = some ("https")
                       then "https" else "http") ++ "://" ++ jsS (hLookup hs ("host")) ++ r.url)
        ip_addr :=
          (match hLookup hs ("x-forwarded-for") with
           | some xff => if xff.isEmpty then peer else some (xff ++ " via " ++ jsS peer)
           | none => peer)
        cookies := some
          (match hLookup hs ("cookie") with
           | some c => if c.isEmpty then [] else cookieParse c
           | none => [])
        headers := some (deleteCookie hs) } := by
  rw [collectReq] at h
  cases hjp : jsPeer r with
  | error e =>
    rw [hjp] at h
    simp at h
  | ok peer =>
    rw [hjp] at h
    rw [Except.ok.injEq] at h
    exact ⟨peer, rfl, h.symm⟩

/-- Counterexample to claim C2 as stated: calling `nodeinfo` without a request
object does raise an error — `req` is `undefined`, so the `if (req.headers)`
test on line 168 throws a `TypeError`. -/
theorem nodeinfo_no_request_throws :
    nodeinfoFull demoHost none none
      = Except.error ("TypeError: Cannot read properties of undefined (reading headers)") := rfl

/-- Claim C2 as amended: calling `nodeinfo` with a supplied request object
whose headers field is absent (falsy) never raises an error: it returns the
page rendered without a request context, which contains the
`No request object supplied` fallback marker, and no chunk of that page is a
request-derived row (no method, href, remote-ip, header or cookie row); the
request object is returned unchanged. -/
theorem no_request_fallback (h : Host) (req : Request) (hreq : req.headers = none) :
    nodeinfoFull h (some req) none = Except.ok (renderPage h none "", some req) ∧
    ("No request object supplied").data <:+: (renderPage h none "").data ∧
    (∀ ch ∈ pageChunks h none "", ∀ s ∈ requestRowLits, ch ≠ Chunk.lit s) := by
  refine ⟨?_, ?_, ?_⟩
  · simp only [nodeinfoFull, hreq]
    rfl
  · have hmem : Chunk.lit noRequestLit ∈ pageChunks h none "" := by
      rw [pageChunks]
      refine List.mem_append.mpr (Or.inl (List.mem_append.mpr (Or.inr ?_)))
      simp [reqChunks]
    have h2 : noRequestLit ∈ (pageChunks h none "").map Chunk.render :=
      List.mem_map_of_mem Chunk.render hmem
    have h3 : noRequestLit.data <:+: (renderPage h none "").data :=
      infix_of_mem_strJoin _ _ h2
    have h4 : ("No request object supplied").data <:+: noRequestLit.data := by decide
    exact h4.trans h3
  · intro ch hch s hsrow
    have hdistinct : ∀ t ∈ basePageLits, ∀ s2 ∈ requestRowLits, t ≠ s2 := by decide
    rcases pageChunks_none_from h "" ch hch with ⟨t, rfl⟩ | rfl | ⟨t, ht, rfl⟩
    · simp
    · simp
    · intro heq
      rw [Chunk.lit.injEq] at heq
      exact hdistinct t ht s hsrow heq

/-- Witness for the amended claim C2 at a concrete request without headers. -/
theorem no_request_fallback_witness :
    noHdrReq.headers = none ∧
    (nodeinfoFull demoHost (some noHdrReq) none
        = Except.ok (renderPage demoHost none "", some noHdrReq) ∧
     ("No request object supplied").data <:+: (renderPage demoHost none "").data ∧
     (∀ ch ∈ pageChunks demoHost none "", ∀ s ∈ requestRowLits, ch ≠ Chunk.lit s)) :=
  ⟨rfl, no_request_fallback demoHost noHdrReq rfl⟩

/-- Claim C10: a request object whose headers field is absent or falsy is not
treated as present — the request facts are not collected (the request object
comes back unchanged), and the page is the one rendered without a request
context, which renders the `No request object supplied` fallback section; the
presence test is the truthiness of the headers field, not of the request
object itself. -/
theorem headers_falsy_fallback (h : Host) (opts : Option Options) (req : Request)
    (hreq : req.headers = none) :
    nodeinfoFull h (some req) opts
      = Except.ok (renderPage h none (styleOf opts), some req) ∧
    ("No request object supplied").data <:+: (renderPage h none (styleOf opts)).data := by
  constructor
  · simp only [nodeinfoFull, hreq]
  · have hmem : Chunk.lit noRequestLit ∈ pageChunks h none (styleOf opts) := by
      rw [pageChunks]
      refine List.mem_append.mpr (Or.inl (List.mem_append.mpr (Or.inr ?_)))
      simp [reqChunks]
    have h2 : noRequestLit ∈ (pageChunks h none (styleOf opts)).map Chunk.render :=
      List.mem_map_of_mem Chunk.render hmem
    have h3 := infix_of_mem_strJoin _ _ h2
    have h4 : ("No request object supplied").data <:+: noRequestLit.data := by decide
    exact h4.trans h3

/-- Witness for claim C10 at a concrete request with no headers field. -/
theorem headers_falsy_fallback_witness :
    noHdrReq.headers = none ∧
    (nodeinfoFull demoHost (some noHdrReq) none
        = Except.ok (renderPage demoHost none (styleOf none), some noHdrReq) ∧
     ("No request object supplied").data <:+: (renderPage demoHost none (styleOf none)).data) :=
  ⟨rfl, headers_falsy_fallback demoHost none noHdrReq rfl⟩

/-- Claim C3: for every request whose cookie header is `a=1; b=2`, the parsed
cookie mapping attached by `nodeinfo` is exactly `a ↦ 1, b ↦ 2`, and no
rendered header row of the returned page carries the key `cookie` (the cookie
header is deleted before the header rows are rendered). -/
theorem cookie_parsing (req : Request) (hs : Headers) (r2 : Request)
    (hh : req.headers = some hs)
    (hcookie : hLookup hs ("cookie") = some ("a=1; b=2"))
    (hc : collectReq req hs = Except.ok r2) :
    r2.cookies = some [("a", "1"), ("b", "2")] ∧
    (∀ kv ∈ r2.headers.getD [], kv.1 ≠ "cookie") ∧
    cookieParse ("a=1; b=2") = [("a", "1"), ("b", "2")] ∧
    (∀ h : Host, nodeinfoFull h (some req) none
      = Except.ok (renderPage h (some r2) "", some r2)) := by
  obtain ⟨peer, hpeer, rfl⟩ := collectReq_spec req hs r2 hc
  have hck : (match hLookup hs ("cookie") with
      | some c => if c.isEmpty then ([] : List (String × String)) else cookieParse c
      | none => []) = [("a", "1"), ("b", "2")] := by
    rw [hcookie]
    decide
  refine ⟨congrArg some hck, ?_, by decide, ?_⟩
  · intro kv hkv
    exact (deleteCookie_spec hs kv hkv).1
  · intro hst
    simp only [nodeinfoFull, hh, hc]
    rfl

/-- Witness for claim C3 at a concrete request. -/
theorem cookie_parsing_witness :
    (c3req.headers = some c3hs ∧ hLookup c3hs ("cookie") = some ("a=1; b=2") ∧
     collectReq c3req c3hs = Except.ok c3r2) ∧
    (c3r2.cookies = some [("a", "1"), ("b", "2")] ∧
     (∀ kv ∈ c3r2.headers.getD [], kv.1 ≠ "cookie") ∧
     cookieParse ("a=1; b=2") = [("a", "1"), ("b", "2")] ∧
     (∀ h : Host, nodeinfoFull h (some c3req) none
        = Except.ok (renderPage h (some c3r2) "", some c3r2))) :=
  ⟨⟨rfl, rfl, rfl⟩, cookie_parsing c3req c3hs c3r2 rfl rfl rfl⟩

/-- Claim C4: for every request carrying a (non-cookie) header value containing
`<script>`, the page `nodeinfo` returns contains the HTML-escaped form
`&lt;script&gt;` and — with the default (empty) style — never the raw tag
anywhere; and for every `options.style` value the CSS text appears verbatim
and unescaped inside the document's embedded stylesheet block (between the
fixed text ending at the `<style>` slot and the fixed text that closes it).
The cookie header is excluded because the source deletes it from the rendered
header rows; the spec treats the unescaped style override separately. -/
theorem header_escaping (h : Host) (req : Request) (hs : Headers) (r2 : Request)
    (name v : String)
    (hh : req.headers = some hs)
    (hc : collectReq req hs = Except.ok r2)
    (hmem : (name, v) ∈ hs)
    (hname : name ≠ "cookie")
    (hv : "<script>".data <:+: v.data) :
    nodeinfoFull h (some req) none = Except.ok (renderPage h (some r2) "", some r2) ∧
    "&lt;script&gt;".data <:+: (renderPage h (some r2) "").data ∧
    ¬ ("<script>".data <:+: (renderPage h (some r2) "").data) ∧
    (∀ sty : String,
      nodeinfoFull h (some req) (some { style := some sty })
        = Except.ok (renderPage h (some r2) sty, some r2) ∧
      renderPage h (some r2) sty = headLit1 ++ sty ++ headLit2 ++ pageAfterStyle h (some r2)) := by
  have hhdr : r2.headers = some (deleteCookie hs) := by
    obtain ⟨peer, _, rfl⟩ := collectReq_spec req hs r2 hc
    rfl
  refine ⟨?_, ?_, page_no_script h (some r2), ?_⟩
  · simp only [nodeinfoFull, hh, hc]
    rfl
  · have h1 : (name, v) ∈ deleteCookie hs := mem_deleteCookie hs (name, v) hmem hname
    have h2 : (name, v) ∈ r2.headers.getD [] := by
      rw [hhdr]
      exact h1
    have h3 : Chunk.escd v ∈ headerRow (name, v) := by simp [headerRow]
    have h4 : Chunk.escd v ∈ ((r2.headers.getD []).map headerRow).flatten :=
      List.mem_flatten.mpr ⟨headerRow (name, v), List.mem_map_of_mem headerRow h2, h3⟩
    have h5 : Chunk.escd v ∈ reqChunks (some r2) := by
      rw [reqChunks]
      exact List.mem_append.mpr (Or.inl (List.mem_append.mpr (Or.inl
        (List.mem_append.mpr (Or.inl (List.mem_append.mpr (Or.inr h4)))))))
    have h6 : Chunk.escd v ∈ pageChunks h (some r2) "" := by
      rw [pageChunks]
      exact List.mem_append.mpr (Or.inl (List.mem_append.mpr (Or.inr h5)))
    have h7 : hbEscape v ∈ (pageChunks h (some r2) "").map Chunk.render :=
      List.mem_map_of_mem Chunk.render h6
    exact (hbEscape_keeps_script v hv).trans (infix_of_mem_strJoin _ _ h7)
  · intro sty
    constructor
    · simp only [nodeinfoFull, hh, hc]
      rfl
    · exact renderPage_decomp h (some r2) sty

/-- Witness for claim C4 at a concrete request carrying a crafted header. -/
theorem header_escaping_witness :
    (c4req.headers = some c4hs ∧ collectReq c4req c4hs = Except.ok c4r2 ∧
     ("x-injected", "<script>alert(1)") ∈ c4hs ∧ ("x-injected" : String) ≠ "cookie" ∧
     "<script>".data <:+: ("<script>alert(1)" : String).data) ∧
    (nodeinfoFull demoHost (some c4req) none
        = Except.ok (renderPage demoHost (some c4r2) "", some c4r2) ∧
     "&lt;script&gt;".data <:+: (renderPage demoHost (some c4r2) "").data ∧
     ¬ ("<script>".data <:+: (renderPage demoHost (some c4r2) "").data) ∧
     (∀ sty : String,
       nodeinfoFull demoHost (some c4req) (some { style := some sty })
         = Except.ok (renderPage demoHost (some c4r2) sty, some c4r2) ∧
       renderPage demoHost (some c4r2) sty
         = headLit1 ++ sty ++ headLit2 ++ pageAfterStyle demoHost (some c4r2))) :=
  ⟨⟨rfl, rfl, by decide, by decide, by decide⟩,
   header_escaping demoHost c4req c4hs c4r2 ("x-injected") ("<script>alert(1)")
     rfl rfl (by decide) (by decide) (by decide)⟩

/-- Counterexample to claim C5 as stated: with an x-forwarded-for header that
is present but empty, and a connection-level remote address that is defined
but empty, the claim's reading (presence / first defined) predicts the
address `" via "`, while the code tests JS truthiness and displays the
socket-level address `"10.0.0.1"`. -/
theorem client_address_counterexample :
    collectReq c5req c5hs = Except.ok c5r2 ∧
    c5r2.ip_addr = some ("10.0.0.1") ∧
    specIpAddr c5req.connection c5req.socket c5hs = some (" via ") ∧
    (" via " : String) ≠ "10.0.0.1" :=
  ⟨rfl, rfl, rfl, by decide⟩

/-- Claim C5 as amended: presence is JS truthiness.  The displayed client
address is the x-forwarded-for header value followed by `" via "` and the
transport peer address when that header is present with a NONEMPTY value,
and otherwise the peer address; the peer address is the first TRUTHY
(defined and nonempty) of the connection-level remote address and the
socket-level remote address, and if both are falsy it is the connection's
nested socket's remote address (whatever that is, even undefined). -/
theorem client_address_amended (req : Request) (hs : Headers) (r2 : Request)
    (hreq : req.headers = some hs) (hc : collectReq req hs = Except.ok r2) :
    ∃ peer, jsPeer req = Except.ok peer ∧
      (jsTruthyOpt req.connection.remoteAddress = true → peer = req.connection.remoteAddress) ∧
      (jsTruthyOpt req.connection.remoteAddress = false →
        jsTruthyOpt req.socket.remoteAddress = true → peer = req.socket.remoteAddress) ∧
      (jsTruthyOpt req.connection.remoteAddress = false →
        jsTruthyOpt req.socket.remoteAddress = false →
        ∀ cs, req.connection.socket = some cs → peer = cs.remoteAddress) ∧
      r2.ip_addr = (match hLookup hs ("x-forwarded-for") with
        | some xff => if xff.isEmpty then peer else some (xff ++ " via " ++ jsS peer)
        | none => peer) := by
  obtain ⟨peer, hpeer, rfl⟩ := collectReq_spec req hs r2 hc
  refine ⟨peer, hpeer, ?_, ?_, ?_, rfl⟩
  · intro ht
    rw [jsPeer, if_pos ht] at hpeer
    exact (Except.ok.inj hpeer).symm
  · intro hf ht
    rw [jsPeer, if_neg (by simp [hf]), if_pos ht] at hpeer
    exact (Except.ok.inj hpeer).symm
  · intro hf1 hf2 cs hcs
    rw [jsPeer, if_neg (by simp [hf1]), if_neg (by simp [hf2]), hcs] at hpeer
    exact (Except.ok.inj hpeer).symm

/-- Witness for the amended claim C5 at a concrete request. -/
theorem client_address_amended_witness :
    (c4req.headers = some c4hs ∧ collectReq c4req c4hs = Except.ok c4r2) ∧
    (∃ peer, jsPeer c4req = Except.ok peer ∧
      (jsTruthyOpt c4req.connection.remoteAddress = true → peer = c4req.connection.remoteAddress) ∧
      (jsTruthyOpt c4req.connection.remoteAddress = false →
        jsTruthyOpt c4req.socket.remoteAddress = true → peer = c4req.socket.remoteAddress) ∧
      (jsTruthyOpt c4req.connection.remoteAddress = false →
        jsTruthyOpt c4req.socket.remoteAddress = false →
        ∀ cs, c4req.connection.socket = some cs → peer = cs.remoteAddress) ∧
      c4r2.ip_addr = (match hLookup c4hs ("x-forwarded-for") with
        | some xff => if xff.isEmpty then peer else some (xff ++ " via " ++ jsS peer)
        | none => peer)) :=
  ⟨⟨rfl, rfl⟩, client_address_amended c4req c4hs c4r2 rfl rfl⟩

/-- Claim C6: for every supplied request, the reconstructed absolute URL is
the scheme, `"://"`, the host header value (JS-stringified, so `"undefined"`
when absent) and the raw path-and-query, concatenated; and the scheme is
`"https"` exactly when the transport's encrypted flag is set or the
x-forwarded-proto header equals `"https"`, and `"http"` otherwise. -/
theorem href_formula (req : Request) (hs : Headers) (r2 : Request)
    (hreq : req.headers = some hs) (hc : collectReq req hs = Except.ok r2) :
    r2.href = some ((if req.socket.encrypted ∨ hLookup hs ("x-forwarded-proto") = some ("https")
        then "https" else "http") ++ "://" ++ jsS (hLookup hs ("host")) ++ req.url) ∧
    ((if req.socket.encrypted ∨ hLookup hs ("x-forwarded-proto") = some ("https")
        then "https" else "http") = "https"
      ↔ (req.socket.encrypted = true ∨ hLookup hs ("x-forwarded-proto") = some ("https"))) := by
  obtain ⟨peer, hpeer, rfl⟩ := collectReq_spec req hs r2 hc
  refine ⟨rfl, ?_⟩
  by_cases hcond : (req.socket.encrypted = true ∨ hLookup hs ("x-forwarded-proto") = some ("https"))
  · rw [if_pos hcond]
    simp [hcond]
  · rw [if_neg hcond]
    constructor
    · intro habs
      exact absurd habs (by decide)
    · intro habs
      exact absurd habs hcond

/-- Witness for claim C6 at a concrete request behind an https proxy. -/
theorem href_formula_witness :
    (c6req.headers = some c6hs ∧ collectReq c6req c6hs = Except.ok c6r2) ∧
    (c6r2.href = some ((if c6req.socket.encrypted ∨ hLookup c6hs ("x-forwarded-proto") = some ("https")
        then "https" else "http") ++ "://" ++ jsS (hLookup c6hs ("host")) ++ c6req.url) ∧
     ((if c6req.socket.encrypted ∨ hLookup c6hs ("x-forwarded-proto") = some ("https")
        then "https" else "http") = "https"
      ↔ (c6req.socket.encrypted = true ∨ hLookup c6hs ("x-forwarded-proto") = some ("https")))) :=
  ⟨⟨rfl, rfl⟩, href_formula c6req c6hs c6r2 rfl rfl⟩

/-- Counterexample to claim C1 as stated: a successful call does modify state
observable by the caller — with a cookie header supplied, the request object
the caller observes after the call differs from the one supplied (its cookie
header was deleted and derived fields were attached). -/
theorem purity_counterexample :
    (nodeinfoFull demoHost (some c1req) none).isOk = true ∧
    requestUnchanged demoHost c1req none = false :=
  ⟨rfl, rfl⟩

/-- Claim C1 as amended: the call is deterministic — its result is the stated
function of the host snapshot, the request and the options alone — but it is
not free of caller-observable effects: the request object it hands back has
its cookie header deleted from the header map (nothing else is removed) and
carries the derived `href`, `ip_addr` and `cookies` fields; scalar request
fields are untouched. -/
theorem purity_amended (h : Host) (req : Request) (hs : Headers) (r2 : Request)
    (opts : Option Options)
    (hh : req.headers = some hs) (hc : collectReq req hs = Except.ok r2) :
    nodeinfoFull h (some req) opts
      = Except.ok (renderPage h (some r2) (styleOf opts), some r2) ∧
    r2.headers = some (deleteCookie hs) ∧
    (∀ kv ∈ deleteCookie hs, kv.1 ≠ "cookie" ∧ kv ∈ hs) ∧
    r2.href.isSome = true ∧
    r2.cookies.isSome = true ∧
    r2.method = req.method ∧ r2.url = req.url := by
  obtain ⟨peer, hpeer, rfl⟩ := collectReq_spec req hs r2 hc
  refine ⟨?_, rfl, deleteCookie_spec hs, rfl, rfl, rfl, rfl⟩
  simp only [nodeinfoFull, hh, hc]

/-- Witness for the amended claim C1 at a concrete request with a cookie. -/
theorem purity_amended_witness :
    (c1req.headers = some c1hs ∧ collectReq c1req c1hs = Except.ok c1r2) ∧
    (nodeinfoFull demoHost (some c1req) none
        = Except.ok (renderPage demoHost (some c1r2) (styleOf none), some c1r2) ∧
     c1r2.headers = some (deleteCookie c1hs) ∧
     (∀ kv ∈ deleteCookie c1hs, kv.1 ≠ "cookie" ∧ kv ∈ c1hs) ∧
     c1r2.href.isSome = true ∧
     c1r2.cookies.isSome = true ∧
     c1r2.method = c1req.method ∧ c1r2.url = c1req.url) :=
  ⟨⟨rfl, rfl⟩, purity_amended demoHost c1req c1hs c1r2 none rfl rfl⟩

end NodejsInfo
